import Mathlib

/-!
# Verification of the JGV level-assignment engine (`src/JGV/Level.py`)

Shallow embedding of `Level.__init__` and `Level.__call__`.  The Python
`level_dict` is modelled as `Int → Option Int` (level index ↦ recorded end
coordinate); the `Counter` is modelled by four explicit `Nat` fields (the
source only ever touches the keys `all_features`, `positive_features`,
`negative_features`, `unstranded_features`).  A Python dict subscript
`self.level_dict[level]` can raise `KeyError` when the key is absent, so the
embedding runs in `Except String`: `dictGet` returns `Except.error "KeyError"`
on a missing key, exactly where the source would raise.  The two `while`
loops run their induction variable `level` from `1` (resp. `-1`) by `+1`
(resp. `-1`) while `level ≤ max_depth` (resp. `level ≥ -max_depth`), hence
execute at most `max_depth.toNat` iterations; the embedding makes that bound
explicit as structural fuel.
-/

/-- `Level.pos_arrowstyle` (Level.py line 54). -/
def pos_arrowstyle : String := "-|>,head_width=1,head_length=2"

/-- `Level.neg_arrowstyle` (Level.py line 55). -/
def neg_arrowstyle : String := "<|-,head_width=1,head_length=2"

/-- `Level.unstrand_arrowstyle` (Level.py line 56). -/
def unstrand_arrowstyle : String := "-"

/-- The configuration captured by `Level.__init__` (Level.py lines 32-59):
`max_depth`, `offset` and the three strand filters.  The arrow styles are
constants, kept as the separate definitions above. -/
structure LevelCfg where
  max_depth : Int
  offset : Int
  filter_pos : Bool
  filter_neg : Bool
  filter_unstrand : Bool

/-- The `enhanced_feature` namedtuple (Level.py line 64): fields
`ID, start, end, arrowstyle, level`.  The Python field `end` is spelled
`end_` because `end` is a Lean keyword. -/
structure EnhancedFeature where
  ID : String
  start : Int
  end_ : Int
  arrowstyle : String
  level : Int
deriving DecidableEq

/-- The mutable state of a `Level` instance: `level_dict` (Level.py line 62)
and the four counter keys actually used by `__call__`
(Level.py lines 107, 112, 125, 136). -/
structure LevelState where
  level_dict : Int → Option Int
  count_all : Nat
  count_pos : Nat
  count_neg : Nat
  count_unstrand : Nat

/-- The empty state created by `Level.__init__` (Level.py lines 62-63). -/
def initState : LevelState :=
  { level_dict := fun _ => none
    count_all := 0
    count_pos := 0
    count_neg := 0
    count_unstrand := 0 }

/-- Python `level in self.level_dict`. -/
def dictMem (d : Int → Option Int) (k : Int) : Bool :=
  (d k).isSome

/-- Python `self.level_dict[level]`: raises `KeyError` when the key is
absent. -/
def dictGet (d : Int → Option Int) (k : Int) : Except String Int :=
  match d k with
  | some v => Except.ok v
  | none => Except.error "KeyError"

/-- Python `self.level_dict[level] = end`. -/
def dictInsert (d : Int → Option Int) (k v : Int) : Int → Option Int :=
  fun x => if x = k then some v else d x

/-- The loop-guard condition of Level.py lines 117 and 130:
`level not in self.level_dict or (self.level_dict[level] + self.offset) < start`.
The `or` short-circuits, so the (possibly raising) subscript is evaluated
only when the membership test fails. -/
def levelIsFree (d : Int → Option Int) (offset start level : Int) :
    Except String Bool :=
  if !(dictMem d level) then
    Except.ok true
  else
    match dictGet d level with
    | Except.error msg => Except.error msg
    | Except.ok e => Except.ok (decide (e + offset < start))

/-- The positive-strand `while` loop (Level.py lines 114-120): scan levels
`level, level+1, …` for `fuel` iterations; on the first free level record
`end_` there and return the enhanced feature, otherwise fall through
(Python reaches `return None` on line 140). -/
def scanPos (offset : Int) (ID : String) (start end_ : Int)
    (d : Int → Option Int) (level : Int) :
    Nat → Except String (Option EnhancedFeature × (Int → Option Int))
  | 0 => Except.ok (none, d)
  | Nat.succ fuel =>
    match levelIsFree d offset start level with
    | Except.error msg => Except.error msg
    | Except.ok true =>
        Except.ok (some ⟨ID, start, end_, pos_arrowstyle, level⟩,
          dictInsert d level end_)
    | Except.ok false => scanPos offset ID start end_ d (level + 1) fuel

/-- The negative-strand `while` loop (Level.py lines 127-133): identical to
`scanPos` except the level counter decreases and the arrow style is
`neg_arrowstyle`. -/
def scanNeg (offset : Int) (ID : String) (start end_ : Int)
    (d : Int → Option Int) (level : Int) :
    Nat → Except String (Option EnhancedFeature × (Int → Option Int))
  | 0 => Except.ok (none, d)
  | Nat.succ fuel =>
    match levelIsFree d offset start level with
    | Except.error msg => Except.error msg
    | Except.ok true =>
        Except.ok (some ⟨ID, start, end_, neg_arrowstyle, level⟩,
          dictInsert d level end_)
    | Except.ok false => scanNeg offset ID start end_ d (level - 1) fuel

/-- `Level.__call__` (Level.py lines 93-140).  Returns the optional
enhanced feature together with the updated state; a raised Python exception
is `Except.error`.  Branch guards mirror lines 110, 123 and 135; both scans
start at `±1` and may run `max_depth.toNat` iterations, which is exactly the
number of times the source loop guards `level <= max_depth` /
`level >= -max_depth` succeed. -/
def assign (cfg : LevelCfg) (s : LevelState) (ID : String)
    (start end_ : Int) (strand : String) :
    Except String (Option EnhancedFeature × LevelState) :=
  let s1 : LevelState := { s with count_all := s.count_all + 1 }
  if strand == "+" && !cfg.filter_pos then
    let s2 : LevelState := { s1 with count_pos := s1.count_pos + 1 }
    match scanPos cfg.offset ID start end_ s2.level_dict 1 cfg.max_depth.toNat with
    | Except.error msg => Except.error msg
    | Except.ok (res, d) => Except.ok (res, { s2 with level_dict := d })
  else if strand == "-" && !cfg.filter_neg then
    let s2 : LevelState := { s1 with count_neg := s1.count_neg + 1 }
    match scanNeg cfg.offset ID start end_ s2.level_dict (-1) cfg.max_depth.toNat with
    | Except.error msg => Except.error msg
    | Except.ok (res, d) => Except.ok (res, { s2 with level_dict := d })
  else if strand == "." && !cfg.filter_unstrand then
    let s2 : LevelState := { s1 with count_unstrand := s1.count_unstrand + 1 }
    Except.ok (some ⟨ID, start, end_, unstrand_arrowstyle, 0⟩,
      { s2 with level_dict := dictInsert s2.level_dict 0 end_ })
  else
    Except.ok (none, s1)

/-- A level is eligible for a new feature: no recorded end yet, or the
recorded end plus the offset lies strictly before the feature's start. -/
def eligible (d : Int → Option Int) (offset start level : Int) : Prop :=
  d level = none ∨ ∃ e, d level = some e ∧ e + offset < start

/-- Boolean form of `eligible`, the value `levelIsFree` computes. -/
def eligibleB (d : Int → Option Int) (offset start level : Int) : Bool :=
  match d level with
  | none => true
  | some e => decide (e + offset < start)

/-! ## Helper lemmas about the loop guard -/

theorem eligible_iff (d : Int → Option Int) (offset start level : Int) :
    eligible d offset start level ↔ eligibleB d offset start level = true := by
  unfold eligible eligibleB
  cases h : d level with
  | none => simp
  | some e => simp

theorem levelIsFree_eq (d : Int → Option Int) (offset start level : Int) :
    levelIsFree d offset start level =
      Except.ok (eligibleB d offset start level) := by
  unfold levelIsFree dictMem dictGet eligibleB
  cases h : d level with
  | none => simp
  | some e => simp

/-! ## Characterisation of the positive scan -/

theorem scanPos_total (offset : Int) (ID : String) (start end_ : Int)
    (d : Int → Option Int) :
    ∀ (fuel : Nat) (level : Int),
      ∃ r, scanPos offset ID start end_ d level fuel = Except.ok r := by
  intro fuel
  induction fuel with
  | zero => intro level; exact ⟨(none, d), rfl⟩
  | succ fuel ih =>
    intro level
    rw [scanPos, levelIsFree_eq]
    cases hb : eligibleB d offset start level with
    | true =>
      exact ⟨(some ⟨ID, start, end_, pos_arrowstyle, level⟩,
        dictInsert d level end_), rfl⟩
    | false => exact ih (level + 1)

theorem scanPos_some (offset : Int) (ID : String) (start end_ : Int)
    (d : Int → Option Int) :
    ∀ (fuel : Nat) (level : Int) (ef : EnhancedFeature)
      (d' : Int → Option Int),
      scanPos offset ID start end_ d level fuel = Except.ok (some ef, d') →
      ef.ID = ID ∧ ef.start = start ∧ ef.end_ = end_ ∧
      ef.arrowstyle = pos_arrowstyle ∧
      level ≤ ef.level ∧ ef.level < level + fuel ∧
      eligible d offset start ef.level ∧
      (∀ L, level ≤ L → L < ef.level → ¬ eligible d offset start L) ∧
      d' = dictInsert d ef.level end_ := by
  intro fuel
  induction fuel with
  | zero => intro level ef d' h; exact absurd h (by simp [scanPos])
  | succ fuel ih =>
    intro level ef d' h
    rw [scanPos, levelIsFree_eq] at h
    cases hb : eligibleB d offset start level with
    | true =>
      rw [hb] at h
      simp only [Except.ok.injEq, Prod.mk.injEq, Option.some.injEq] at h
      obtain ⟨hef, hd⟩ := h
      have hlev : ef.level = level := by rw [← hef]
      refine ⟨?_, ?_, ?_, ?_, ?_, ?_, ?_, ?_, ?_⟩
      · rw [← hef]
      · rw [← hef]
      · rw [← hef]
      · rw [← hef]
      · rw [hlev]
      · rw [hlev]; omega
      · rw [hlev]; exact (eligible_iff _ _ _ _).mpr hb
      · intro L h1 h2; rw [hlev] at h2; omega
      · rw [hlev]; exact hd.symm
    | false =>
      rw [hb] at h
      obtain ⟨hID, hst, hen, har, hle, hlt, helig, hmin, hd⟩ :=
        ih (level + 1) ef d' h
      refine ⟨hID, hst, hen, har, by omega, by omega, helig, ?_, hd⟩
      intro L h1 h2
      rcases eq_or_lt_of_le h1 with h1' | h1'
      · subst h1'
        rw [eligible_iff, hb]
        simp
      · exact hmin L (by omega) h2

theorem scanPos_none (offset : Int) (ID : String) (start end_ : Int)
    (d : Int → Option Int) :
    ∀ (fuel : Nat) (level : Int) (d' : Int → Option Int),
      scanPos offset ID start end_ d level fuel = Except.ok (none, d') →
      d' = d ∧ ∀ L, level ≤ L → L < level + fuel → ¬ eligible d offset start L := by
  intro fuel
  induction fuel with
  | zero =>
    intro level d' h
    simp only [scanPos, Except.ok.injEq, Prod.mk.injEq, true_and] at h
    exact ⟨h.symm, by intro L h1 h2; omega⟩
  | succ fuel ih =>
    intro level d' h
    rw [scanPos, levelIsFree_eq] at h
    cases hb : eligibleB d offset start level with
    | true => rw [hb] at h; simp at h
    | false =>
      rw [hb] at h
      obtain ⟨hd, hall⟩ := ih (level + 1) d' h
      refine ⟨hd, ?_⟩
      intro L h1 h2
      rcases eq_or_lt_of_le h1 with h1' | h1'
      · subst h1'
        rw [eligible_iff, hb]
        simp
      · exact hall L (by omega) (by omega)

/-! ## Characterisation of the negative scan -/

theorem scanNeg_total (offset : Int) (ID : String) (start end_ : Int)
    (d : Int → Option Int) :
    ∀ (fuel : Nat) (level : Int),
      ∃ r, scanNeg offset ID start end_ d level fuel = Except.ok r := by
  intro fuel
  induction fuel with
  | zero => intro level; exact ⟨(none, d), rfl⟩
  | succ fuel ih =>
    intro level
    rw [scanNeg, levelIsFree_eq]
    cases hb : eligibleB d offset start level with
    | true =>
      exact ⟨(some ⟨ID, start, end_, neg_arrowstyle, level⟩,
        dictInsert d level end_), rfl⟩
    | false => exact ih (level - 1)

theorem scanNeg_some (offset : Int) (ID : String) (start end_ : Int)
    (d : Int → Option Int) :
    ∀ (fuel : Nat) (level : Int) (ef : EnhancedFeature)
      (d' : Int → Option Int),
      scanNeg offset ID start end_ d level fuel = Except.ok (some ef, d') →
      ef.ID = ID ∧ ef.start = start ∧ ef.end_ = end_ ∧
      ef.arrowstyle = neg_arrowstyle ∧
      ef.level ≤ level ∧ level - fuel < ef.level ∧
      eligible d offset start ef.level ∧
      (∀ L, ef.level < L → L ≤ level → ¬ eligible d offset start L) ∧
      d' = dictInsert d ef.level end_ := by
  intro fuel
  induction fuel with
  | zero => intro level ef d' h; exact absurd h (by simp [scanNeg])
  | succ fuel ih =>
    intro level ef d' h
    rw [scanNeg, levelIsFree_eq] at h
    cases hb : eligibleB d offset start level with
    | true =>
      rw [hb] at h
      simp only [Except.ok.injEq, Prod.mk.injEq, Option.some.injEq] at h
      obtain ⟨hef, hd⟩ := h
      have hlev : ef.level = level := by rw [← hef]
      refine ⟨?_, ?_, ?_, ?_, ?_, ?_, ?_, ?_, ?_⟩
      · rw [← hef]
      · rw [← hef]
      · rw [← hef]
      · rw [← hef]
      · rw [hlev]
      · rw [hlev]; omega
      · rw [hlev]; exact (eligible_iff _ _ _ _).mpr hb
      · intro L h1 h2; rw [hlev] at h1; omega
      · rw [hlev]; exact hd.symm
    | false =>
      rw [hb] at h
      obtain ⟨hID, hst, hen, har, hle, hlt, helig, hmin, hd⟩ :=
        ih (level - 1) ef d' h
      refine ⟨hID, hst, hen, har, by omega, by omega, helig, ?_, hd⟩
      intro L h1 h2
      rcases eq_or_lt_of_le h2 with h2' | h2'
      · subst h2'
        rw [eligible_iff, hb]
        simp
      · exact hmin L h1 (by omega)

theorem scanNeg_none (offset : Int) (ID : String) (start end_ : Int)
    (d : Int → Option Int) :
    ∀ (fuel : Nat) (level : Int) (d' : Int → Option Int),
      scanNeg offset ID start end_ d level fuel = Except.ok (none, d') →
      d' = d ∧ ∀ L, level - fuel < L → L ≤ level → ¬ eligible d offset start L := by
  intro fuel
  induction fuel with
  | zero =>
    intro level d' h
    simp only [scanNeg, Except.ok.injEq, Prod.mk.injEq, true_and] at h
    exact ⟨h.symm, by intro L h1 h2; omega⟩
  | succ fuel ih =>
    intro level d' h
    rw [scanNeg, levelIsFree_eq] at h
    cases hb : eligibleB d offset start level with
    | true => rw [hb] at h; simp at h
    | false =>
      rw [hb] at h
      obtain ⟨hd, hall⟩ := ih (level - 1) d' h
      refine ⟨hd, ?_⟩
      intro L h1 h2
      rcases eq_or_lt_of_le h2 with h2' | h2'
      · subst h2'
        rw [eligible_iff, hb]
        simp
      · exact hall L (by omega) (by omega)

/-! ## Branch equations for `assign` -/

theorem assign_pos_eq (cfg : LevelCfg) (s : LevelState) (ID : String)
    (start end_ : Int) (res : Option EnhancedFeature) (d : Int → Option Int)
    (hf : cfg.filter_pos = false)
    (h : scanPos cfg.offset ID start end_ s.level_dict 1 cfg.max_depth.toNat =
      Except.ok (res, d)) :
    assign cfg s ID start end_ "+" =
      Except.ok (res,
        ⟨d, s.count_all + 1, s.count_pos + 1, s.count_neg, s.count_unstrand⟩) := by
  unfold assign
  simp only [hf]
  rw [show (("+" == "+" && !false) = true) from rfl]
  simp only [if_true]
  rw [h]

theorem assign_neg_eq (cfg : LevelCfg) (s : LevelState) (ID : String)
    (start end_ : Int) (res : Option EnhancedFeature) (d : Int → Option Int)
    (hf : cfg.filter_neg = false)
    (h : scanNeg cfg.offset ID start end_ s.level_dict (-1) cfg.max_depth.toNat =
      Except.ok (res, d)) :
    assign cfg s ID start end_ "-" =
      Except.ok (res,
        ⟨d, s.count_all + 1, s.count_pos, s.count_neg + 1, s.count_unstrand⟩) := by
  unfold assign
  simp only [hf]
  rw [show (("-" == "+" && !cfg.filter_pos) = false) from by simp]
  rw [show (("-" == "-" && !false) = true) from rfl]
  rw [h]
  simp

theorem assign_unstrand_eq (cfg : LevelCfg) (s : LevelState) (ID : String)
    (start end_ : Int) (hf : cfg.filter_unstrand = false) :
    assign cfg s ID start end_ "." =
      Except.ok (some ⟨ID, start, end_, unstrand_arrowstyle, 0⟩,
        ⟨dictInsert s.level_dict 0 end_,
          s.count_all + 1, s.count_pos, s.count_neg, s.count_unstrand + 1⟩) := by
  unfold assign
  simp only [hf]
  rw [show (("." == "+" && !cfg.filter_pos) = false) from by simp]
  rw [show (("." == "-" && !cfg.filter_neg) = false) from by simp]
  rw [show (("." == "." && !false) = true) from rfl]
  simp

theorem assign_drop_eq (cfg : LevelCfg) (s : LevelState) (ID : String)
    (start end_ : Int) (strand : String)
    (h1 : (strand == "+" && !cfg.filter_pos) = false)
    (h2 : (strand == "-" && !cfg.filter_neg) = false)
    (h3 : (strand == "." && !cfg.filter_unstrand) = false) :
    assign cfg s ID start end_ strand =
      Except.ok (none,
        ⟨s.level_dict, s.count_all + 1, s.count_pos, s.count_neg,
          s.count_unstrand⟩) := by
  unfold assign
  rw [h1, h2, h3]
  simp

/-! ## Inversion lemmas for `assign` -/

theorem assign_some_inv (cfg : LevelCfg) (s : LevelState) (ID : String)
    (start end_ : Int) (strand : String) (ef : EnhancedFeature)
    (s' : LevelState)
    (h : assign cfg s ID start end_ strand = Except.ok (some ef, s')) :
    ef.ID = ID ∧ ef.start = start ∧ ef.end_ = end_ ∧
    ((ef.arrowstyle = pos_arrowstyle ∧ 1 ≤ ef.level ∧
        ef.level ≤ cfg.max_depth ∧
        eligible s.level_dict cfg.offset start ef.level ∧
        s'.level_dict = dictInsert s.level_dict ef.level end_) ∨
      (ef.arrowstyle = neg_arrowstyle ∧ -cfg.max_depth ≤ ef.level ∧
        ef.level ≤ -1 ∧
        eligible s.level_dict cfg.offset start ef.level ∧
        s'.level_dict = dictInsert s.level_dict ef.level end_) ∨
      (ef.arrowstyle = unstrand_arrowstyle ∧ ef.level = 0 ∧
        s'.level_dict = dictInsert s.level_dict 0 end_)) := by
  cases hp : (strand == "+" && !cfg.filter_pos) with
  | true =>
    rw [Bool.and_eq_true] at hp
    have hs : strand = "+" := eq_of_beq hp.1
    have hf : cfg.filter_pos = false := by simpa using hp.2
    obtain ⟨⟨res, d⟩, hscan⟩ :=
      scanPos_total cfg.offset ID start end_ s.level_dict cfg.max_depth.toNat 1
    subst hs
    rw [assign_pos_eq cfg s ID start end_ res d hf hscan] at h
    simp only [Except.ok.injEq, Prod.mk.injEq] at h
    obtain ⟨hres, hstate⟩ := h
    subst hres
    obtain ⟨hID, hst, hen, har, hle, hlt, helig, -, hd⟩ :=
      scanPos_some cfg.offset ID start end_ s.level_dict
        cfg.max_depth.toNat 1 ef d hscan
    refine ⟨hID, hst, hen, Or.inl ⟨har, hle, by omega, helig, ?_⟩⟩
    rw [← hstate, hd]
  | false =>
    cases hn : (strand == "-" && !cfg.filter_neg) with
    | true =>
      rw [Bool.and_eq_true] at hn
      have hs : strand = "-" := eq_of_beq hn.1
      have hf : cfg.filter_neg = false := by simpa using hn.2
      obtain ⟨⟨res, d⟩, hscan⟩ :=
        scanNeg_total cfg.offset ID start end_ s.level_dict cfg.max_depth.toNat (-1)
      subst hs
      rw [assign_neg_eq cfg s ID start end_ res d hf hscan] at h
      simp only [Except.ok.injEq, Prod.mk.injEq] at h
      obtain ⟨hres, hstate⟩ := h
      subst hres
      obtain ⟨hID, hst, hen, har, hle, hlt, helig, -, hd⟩ :=
        scanNeg_some cfg.offset ID start end_ s.level_dict
          cfg.max_depth.toNat (-1) ef d hscan
      refine ⟨hID, hst, hen, Or.inr (Or.inl ⟨har, by omega, hle, helig, ?_⟩)⟩
      rw [← hstate, hd]
    | false =>
      cases hu : (strand == "." && !cfg.filter_unstrand) with
      | true =>
        rw [Bool.and_eq_true] at hu
        have hs : strand = "." := eq_of_beq hu.1
        have hf : cfg.filter_unstrand = false := by simpa using hu.2
        subst hs
        rw [assign_unstrand_eq cfg s ID start end_ hf] at h
        simp only [Except.ok.injEq, Prod.mk.injEq, Option.some.injEq] at h
        obtain ⟨hef, hstate⟩ := h
        refine ⟨by rw [← hef], by rw [← hef], by rw [← hef],
          Or.inr (Or.inr ⟨by rw [← hef], by rw [← hef], ?_⟩)⟩
        rw [← hstate]
      | false =>
        rw [assign_drop_eq cfg s ID start end_ strand hp hn hu] at h
        simp at h

theorem assign_none_inv (cfg : LevelCfg) (s : LevelState) (ID : String)
    (start end_ : Int) (strand : String) (s' : LevelState)
    (h : assign cfg s ID start end_ strand = Except.ok (none, s')) :
    s'.level_dict = s.level_dict := by
  cases hp : (strand == "+" && !cfg.filter_pos) with
  | true =>
    rw [Bool.and_eq_true] at hp
    have hs : strand = "+" := eq_of_beq hp.1
    have hf : cfg.filter_pos = false := by simpa using hp.2
    obtain ⟨⟨res, d⟩, hscan⟩ :=
      scanPos_total cfg.offset ID start end_ s.level_dict cfg.max_depth.toNat 1
    subst hs
    rw [assign_pos_eq cfg s ID start end_ res d hf hscan] at h
    simp only [Except.ok.injEq, Prod.mk.injEq] at h
    obtain ⟨hres, hstate⟩ := h
    subst hres
    obtain ⟨hd, -⟩ :=
      scanPos_none cfg.offset ID start end_ s.level_dict
        cfg.max_depth.toNat 1 d hscan
    rw [← hstate, hd]
  | false =>
    cases hn : (strand == "-" && !cfg.filter_neg) with
    | true =>
      rw [Bool.and_eq_true] at hn
      have hs : strand = "-" := eq_of_beq hn.1
      have hf : cfg.filter_neg = false := by simpa using hn.2
      obtain ⟨⟨res, d⟩, hscan⟩ :=
        scanNeg_total cfg.offset ID start end_ s.level_dict cfg.max_depth.toNat (-1)
      subst hs
      rw [assign_neg_eq cfg s ID start end_ res d hf hscan] at h
      simp only [Except.ok.injEq, Prod.mk.injEq] at h
      obtain ⟨hres, hstate⟩ := h
      subst hres
      obtain ⟨hd, -⟩ :=
        scanNeg_none cfg.offset ID start end_ s.level_dict
          cfg.max_depth.toNat (-1) d hscan
      rw [← hstate, hd]
    | false =>
      cases hu : (strand == "." && !cfg.filter_unstrand) with
      | true =>
        rw [Bool.and_eq_true] at hu
        have hs : strand = "." := eq_of_beq hu.1
        have hf : cfg.filter_unstrand = false := by simpa using hu.2
        subst hs
        rw [assign_unstrand_eq cfg s ID start end_ hf] at h
        simp at h
      | false =>
        rw [assign_drop_eq cfg s ID start end_ strand hp hn hu] at h
        simp only [Except.ok.injEq, Prod.mk.injEq] at h
        rw [← h.2]

/-! ## Concrete fixtures (spec §8 example scenarios: offset 10, max_depth 2) -/

/-- Configuration of spec example scenarios: `max_depth = 2`, `offset = 10`,
default filters (`filter_unstrand = true`). -/
def cfg0 : LevelCfg := ⟨2, 10, false, false, true⟩

/-- Same configuration but with `filter_unstrand = false` (spec example 3). -/
def cfgU : LevelCfg := ⟨2, 10, false, false, false⟩

/-- State after feature A(0,100) on the plus strand was assigned to level 1. -/
def stA : LevelState := ⟨dictInsert initState.level_dict 1 100, 1, 1, 0, 0⟩

/-- State after unstranded feature X(0,50) was assigned to level 0. -/
def stX : LevelState := ⟨dictInsert initState.level_dict 0 50, 1, 0, 0, 1⟩

/-- A branch whose Boolean guard is false was not entered. -/
theorem branch_not_entered {strand lit : String} {flag : Bool}
    (h : (strand == lit && !flag) = false) : ¬(strand = lit ∧ flag = false) := by
  rintro ⟨h1, h2⟩
  subst h1
  rw [h2] at h
  simp at h

/-! ## Claim theorems -/

/-- C9: totality of `assign` — for every input (any id, start, end, and any
strand value) the call never raises an error; the only outcomes are an
assigned `EnhancedFeature` or nothing. -/
theorem C9_assign_total (cfg : LevelCfg) (s : LevelState) (ID : String)
    (start end_ : Int) (strand : String) :
    ∃ r, assign cfg s ID start end_ strand = Except.ok r := by
  cases hp : (strand == "+" && !cfg.filter_pos) with
  | true =>
    rw [Bool.and_eq_true] at hp
    have hs : strand = "+" := eq_of_beq hp.1
    have hf : cfg.filter_pos = false := by simpa using hp.2
    obtain ⟨⟨res, d⟩, hscan⟩ :=
      scanPos_total cfg.offset ID start end_ s.level_dict cfg.max_depth.toNat 1
    subst hs
    exact ⟨_, assign_pos_eq cfg s ID start end_ res d hf hscan⟩
  | false =>
    cases hn : (strand == "-" && !cfg.filter_neg) with
    | true =>
      rw [Bool.and_eq_true] at hn
      have hs : strand = "-" := eq_of_beq hn.1
      have hf : cfg.filter_neg = false := by simpa using hn.2
      obtain ⟨⟨res, d⟩, hscan⟩ :=
        scanNeg_total cfg.offset ID start end_ s.level_dict cfg.max_depth.toNat (-1)
      subst hs
      exact ⟨_, assign_neg_eq cfg s ID start end_ res d hf hscan⟩
    | false =>
      cases hu : (strand == "." && !cfg.filter_unstrand) with
      | true =>
        rw [Bool.and_eq_true] at hu
        have hs : strand = "." := eq_of_beq hu.1
        have hf : cfg.filter_unstrand = false := by simpa using hu.2
        subst hs
        exact ⟨_, assign_unstrand_eq cfg s ID start end_ hf⟩
      | false =>
        exact ⟨_, assign_drop_eq cfg s ID start end_ strand hp hn hu⟩

/-- C6: count invariant — every call increments the "all features" counter
by exactly one, and each per-class counter is incremented exactly when that
class's branch was entered (strand matched and the class was not filtered),
regardless of whether the feature was assigned or dropped. -/
theorem C6_count_invariant (cfg : LevelCfg) (s : LevelState) (ID : String)
    (start end_ : Int) (strand : String) :
    ∃ r s', assign cfg s ID start end_ strand = Except.ok (r, s') ∧
      s'.count_all = s.count_all + 1 ∧
      s'.count_pos = s.count_pos +
        (if strand = "+" ∧ cfg.filter_pos = false then 1 else 0) ∧
      s'.count_neg = s.count_neg +
        (if strand = "-" ∧ cfg.filter_neg = false then 1 else 0) ∧
      s'.count_unstrand = s.count_unstrand +
        (if strand = "." ∧ cfg.filter_unstrand = false then 1 else 0) := by
  cases hp : (strand == "+" && !cfg.filter_pos) with
  | true =>
    rw [Bool.and_eq_true] at hp
    have hs : strand = "+" := eq_of_beq hp.1
    have hf : cfg.filter_pos = false := by simpa using hp.2
    obtain ⟨⟨res, d⟩, hscan⟩ :=
      scanPos_total cfg.offset ID start end_ s.level_dict cfg.max_depth.toNat 1
    subst hs
    refine ⟨res, _, assign_pos_eq cfg s ID start end_ res d hf hscan,
      rfl, ?_, ?_, ?_⟩
    · rw [if_pos ⟨rfl, hf⟩]
    · rw [if_neg (fun h => absurd h.1 (by decide))]; rfl
    · rw [if_neg (fun h => absurd h.1 (by decide))]; rfl
  | false =>
    cases hn : (strand == "-" && !cfg.filter_neg) with
    | true =>
      rw [Bool.and_eq_true] at hn
      have hs : strand = "-" := eq_of_beq hn.1
      have hf : cfg.filter_neg = false := by simpa using hn.2
      obtain ⟨⟨res, d⟩, hscan⟩ :=
        scanNeg_total cfg.offset ID start end_ s.level_dict cfg.max_depth.toNat (-1)
      subst hs
      refine ⟨res, _, assign_neg_eq cfg s ID start end_ res d hf hscan,
        rfl, ?_, ?_, ?_⟩
      · rw [if_neg (fun h => absurd h.1 (by decide))]; rfl
      · rw [if_pos ⟨rfl, hf⟩]
      · rw [if_neg (fun h => absurd h.1 (by decide))]; rfl
    | false =>
      cases hu : (strand == "." && !cfg.filter_unstrand) with
      | true =>
        rw [Bool.and_eq_true] at hu
        have hs : strand = "." := eq_of_beq hu.1
        have hf : cfg.filter_unstrand = false := by simpa using hu.2
        subst hs
        refine ⟨_, _, assign_unstrand_eq cfg s ID start end_ hf,
          rfl, ?_, ?_, ?_⟩
        · rw [if_neg (fun h => absurd h.1 (by decide))]; rfl
        · rw [if_neg (fun h => absurd h.1 (by decide))]; rfl
        · rw [if_pos ⟨rfl, hf⟩]
      | false =>
        refine ⟨none, _, assign_drop_eq cfg s ID start end_ strand hp hn hu,
          rfl, ?_, ?_, ?_⟩
        · rw [if_neg (branch_not_entered hp)]; rfl
        · rw [if_neg (branch_not_entered hn)]; rfl
        · rw [if_neg (branch_not_entered hu)]; rfl

/-- C7: a call whose matching strand class is filtered, or whose strand
matches no recognized class while `filter_unstrand` is true, returns
nothing, increments no class counter (only the "all features" counter), and
leaves the level map unchanged. -/
theorem C7_filtered_drop (cfg : LevelCfg) (s : LevelState) (ID : String)
    (start end_ : Int) (strand : String)
    (hc : (strand = "+" ∧ cfg.filter_pos = true) ∨
          (strand = "-" ∧ cfg.filter_neg = true) ∨
          (strand ≠ "+" ∧ strand ≠ "-" ∧ cfg.filter_unstrand = true)) :
    assign cfg s ID start end_ strand =
      Except.ok (none, ⟨s.level_dict, s.count_all + 1, s.count_pos,
        s.count_neg, s.count_unstrand⟩) := by
  apply assign_drop_eq
  · rcases hc with ⟨h1, h2⟩ | ⟨h1, h2⟩ | ⟨h1, h2, h3⟩
    · subst h1; rw [h2]; simp
    · subst h1; simp
    · simp [h1]
  · rcases hc with ⟨h1, h2⟩ | ⟨h1, h2⟩ | ⟨h1, h2, h3⟩
    · subst h1; simp
    · subst h1; rw [h2]; simp
    · simp [h2]
  · rcases hc with ⟨h1, h2⟩ | ⟨h1, h2⟩ | ⟨h1, h2, h3⟩
    · subst h1; simp
    · subst h1; simp
    · rw [h3]; simp

/-- Witness for C7 at spec example 4: `filter_neg = true`, a minus-strand
feature is dropped, only the "all features" counter moves. -/
theorem C7_witness :
    assign ⟨2, 10, false, true, true⟩ initState "M" 0 100 "-" =
      Except.ok (none, ⟨initState.level_dict, initState.count_all + 1,
        initState.count_pos, initState.count_neg,
        initState.count_unstrand⟩) :=
  C7_filtered_drop ⟨2, 10, false, true, true⟩ initState "M" 0 100 "-"
    (Or.inr (Or.inl ⟨rfl, rfl⟩))

/-- The enhanced feature produced for A(0,100) on the plus strand. -/
def efA : EnhancedFeature := ⟨"A", 0, 100, pos_arrowstyle, 1⟩

/-- The enhanced feature produced for D(0,100) on the minus strand. -/
def efD : EnhancedFeature := ⟨"D", 0, 100, neg_arrowstyle, -1⟩

/-- State after feature D(0,100) on the minus strand was assigned to level -1. -/
def stD : LevelState := ⟨dictInsert initState.level_dict (-1) 100, 1, 0, 1, 0⟩

/-- The enhanced feature produced for C(200,250) on the plus strand (spec
example 1, reusing level 1 after A). -/
def efC : EnhancedFeature := ⟨"C", 200, 250, pos_arrowstyle, 1⟩

/-- State after C(200,250) reused level 1 on top of `stA`. -/
def stC : LevelState := ⟨dictInsert stA.level_dict 1 250, 2, 2, 0, 0⟩

/-- C1: for a Plus-strand call with `filter_pos` false, the engine scans
levels 1..max_depth ascending, assigns the first eligible level (no recorded
end, or recorded end + offset < start), records the feature's end there and
returns style `pos_arrowstyle` with that level; if no level is eligible it
returns nothing.  Symmetrically for Minus with `filter_neg` false over
levels -1..-max_depth with style `neg_arrowstyle`. -/
theorem C1_strand_scan (cfg : LevelCfg) (s : LevelState) (ID : String)
    (start end_ : Int) :
    (cfg.filter_pos = false →
      (∀ ef s', assign cfg s ID start end_ "+" = Except.ok (some ef, s') →
        ef.ID = ID ∧ ef.start = start ∧ ef.end_ = end_ ∧
        ef.arrowstyle = pos_arrowstyle ∧
        1 ≤ ef.level ∧ ef.level ≤ cfg.max_depth ∧
        eligible s.level_dict cfg.offset start ef.level ∧
        (∀ L, 1 ≤ L → L < ef.level →
          ¬ eligible s.level_dict cfg.offset start L) ∧
        s'.level_dict = dictInsert s.level_dict ef.level end_) ∧
      (∀ s', assign cfg s ID start end_ "+" = Except.ok (none, s') →
        ∀ L, 1 ≤ L → L ≤ cfg.max_depth →
          ¬ eligible s.level_dict cfg.offset start L)) ∧
    (cfg.filter_neg = false →
      (∀ ef s', assign cfg s ID start end_ "-" = Except.ok (some ef, s') →
        ef.ID = ID ∧ ef.start = start ∧ ef.end_ = end_ ∧
        ef.arrowstyle = neg_arrowstyle ∧
        -cfg.max_depth ≤ ef.level ∧ ef.level ≤ -1 ∧
        eligible s.level_dict cfg.offset start ef.level ∧
        (∀ L, ef.level < L → L ≤ -1 →
          ¬ eligible s.level_dict cfg.offset start L) ∧
        s'.level_dict = dictInsert s.level_dict ef.level end_) ∧
      (∀ s', assign cfg s ID start end_ "-" = Except.ok (none, s') →
        ∀ L, -cfg.max_depth ≤ L → L ≤ -1 →
          ¬ eligible s.level_dict cfg.offset start L)) := by
  constructor
  · intro hf
    constructor
    · intro ef s' h
      obtain ⟨⟨res, d⟩, hscan⟩ :=
        scanPos_total cfg.offset ID start end_ s.level_dict cfg.max_depth.toNat 1
      rw [assign_pos_eq cfg s ID start end_ res d hf hscan] at h
      simp only [Except.ok.injEq, Prod.mk.injEq] at h
      obtain ⟨hres, hstate⟩ := h
      subst hres
      obtain ⟨hID, hst, hen, har, hle, hlt, helig, hmin, hd⟩ :=
        scanPos_some cfg.offset ID start end_ s.level_dict
          cfg.max_depth.toNat 1 ef d hscan
      exact ⟨hID, hst, hen, har, hle, by omega, helig, hmin,
        by rw [← hstate, hd]⟩
    · intro s' h L h1 h2
      obtain ⟨⟨res, d⟩, hscan⟩ :=
        scanPos_total cfg.offset ID start end_ s.level_dict cfg.max_depth.toNat 1
      rw [assign_pos_eq cfg s ID start end_ res d hf hscan] at h
      simp only [Except.ok.injEq, Prod.mk.injEq] at h
      obtain ⟨hres, hstate⟩ := h
      subst hres
      obtain ⟨-, hall⟩ :=
        scanPos_none cfg.offset ID start end_ s.level_dict
          cfg.max_depth.toNat 1 d hscan
      exact hall L h1 (by omega)
  · intro hf
    constructor
    · intro ef s' h
      obtain ⟨⟨res, d⟩, hscan⟩ :=
        scanNeg_total cfg.offset ID start end_ s.level_dict cfg.max_depth.toNat (-1)
      rw [assign_neg_eq cfg s ID start end_ res d hf hscan] at h
      simp only [Except.ok.injEq, Prod.mk.injEq] at h
      obtain ⟨hres, hstate⟩ := h
      subst hres
      obtain ⟨hID, hst, hen, har, hle, hlt, helig, hmin, hd⟩ :=
        scanNeg_some cfg.offset ID start end_ s.level_dict
          cfg.max_depth.toNat (-1) ef d hscan
      exact ⟨hID, hst, hen, har, by omega, hle, helig, hmin,
        by rw [← hstate, hd]⟩
    · intro s' h L h1 h2
      obtain ⟨⟨res, d⟩, hscan⟩ :=
        scanNeg_total cfg.offset ID start end_ s.level_dict cfg.max_depth.toNat (-1)
      rw [assign_neg_eq cfg s ID start end_ res d hf hscan] at h
      simp only [Except.ok.injEq, Prod.mk.injEq] at h
      obtain ⟨hres, hstate⟩ := h
      subst hres
      obtain ⟨-, hall⟩ :=
        scanNeg_none cfg.offset ID start end_ s.level_dict
          cfg.max_depth.toNat (-1) d hscan
      exact hall L (by omega) h2

/-- Witness for C1: A(0,100) on the plus strand lands on level 1 with the
plus arrow style, and D(0,100) on the minus strand lands on level -1 with
the minus arrow style, both recording their end in the level map. -/
theorem C1_witness :
    efA.arrowstyle = pos_arrowstyle ∧ 1 ≤ efA.level ∧
    efA.level ≤ cfg0.max_depth ∧
    eligible initState.level_dict cfg0.offset 0 efA.level ∧
    stA.level_dict = dictInsert initState.level_dict efA.level 100 ∧
    efD.arrowstyle = neg_arrowstyle ∧ -cfg0.max_depth ≤ efD.level ∧
    efD.level ≤ -1 ∧
    eligible initState.level_dict cfg0.offset 0 efD.level ∧
    stD.level_dict = dictInsert initState.level_dict efD.level 100 := by
  have hp := ((C1_strand_scan cfg0 initState "A" 0 100).1 rfl).1 efA stA rfl
  have hn := ((C1_strand_scan cfg0 initState "D" 0 100).2 rfl).1 efD stD rfl
  exact ⟨hp.2.2.2.1, hp.2.2.2.2.1, hp.2.2.2.2.2.1, hp.2.2.2.2.2.2.1,
    hp.2.2.2.2.2.2.2.2, hn.2.2.2.1, hn.2.2.2.2.1, hn.2.2.2.2.2.1,
    hn.2.2.2.2.2.2.1, hn.2.2.2.2.2.2.2.2⟩

/-- C5: bounds invariant — every returned level lies in
`{-max_depth,…,-1} ∪ {0} ∪ {1,…,max_depth}`. -/
theorem C5_bounds (cfg : LevelCfg) (s : LevelState) (ID : String)
    (start end_ : Int) (strand : String) (ef : EnhancedFeature)
    (s' : LevelState)
    (h : assign cfg s ID start end_ strand = Except.ok (some ef, s')) :
    (1 ≤ ef.level ∧ ef.level ≤ cfg.max_depth) ∨ ef.level = 0 ∨
      (-cfg.max_depth ≤ ef.level ∧ ef.level ≤ -1) := by
  obtain ⟨-, -, -, hc⟩ := assign_some_inv cfg s ID start end_ strand ef s' h
  rcases hc with ⟨-, h1, h2, -, -⟩ | ⟨-, h1, h2, -, -⟩ | ⟨-, h0, -⟩
  · exact Or.inl ⟨h1, h2⟩
  · exact Or.inr (Or.inr ⟨h1, h2⟩)
  · exact Or.inr (Or.inl h0)

/-- Witness for C5 at A(0,100) on the plus strand with `cfg0`. -/
theorem C5_witness :
    (1 ≤ efA.level ∧ efA.level ≤ cfg0.max_depth) ∨ efA.level = 0 ∨
      (-cfg0.max_depth ≤ efA.level ∧ efA.level ≤ -1) :=
  C5_bounds cfg0 initState "A" 0 100 "+" efA stA rfl

/-- C10: pass-through — for every call that returns an EnhancedFeature, the
returned ID, start and end fields are exactly the call's arguments. -/
theorem C10_passthrough (cfg : LevelCfg) (s : LevelState) (ID : String)
    (start end_ : Int) (strand : String) (ef : EnhancedFeature)
    (s' : LevelState)
    (h : assign cfg s ID start end_ strand = Except.ok (some ef, s')) :
    ef.ID = ID ∧ ef.start = start ∧ ef.end_ = end_ := by
  obtain ⟨h1, h2, h3, -⟩ := assign_some_inv cfg s ID start end_ strand ef s' h
  exact ⟨h1, h2, h3⟩

/-- Witness for C10 at A(0,100) on the plus strand with `cfg0`. -/
theorem C10_witness :
    efA.ID = "A" ∧ efA.start = 0 ∧ efA.end_ = 100 :=
  C10_passthrough cfg0 initState "A" 0 100 "+" efA stA rfl

/-- C4: spacing invariant — when a call assigns a feature to a non-zero
level that already has a recorded end `E` in the pre-state, then
`E + offset < start` (the eligibility check against the most recent end
recorded for that level before this assignment). -/
theorem C4_spacing (cfg : LevelCfg) (s : LevelState) (ID : String)
    (start end_ : Int) (strand : String) (ef : EnhancedFeature)
    (s' : LevelState) (E : Int)
    (hnz : ef.level ≠ 0)
    (hE : s.level_dict ef.level = some E)
    (h : assign cfg s ID start end_ strand = Except.ok (some ef, s')) :
    E + cfg.offset < start := by
  obtain ⟨-, -, -, hc⟩ := assign_some_inv cfg s ID start end_ strand ef s' h
  have helig : eligible s.level_dict cfg.offset start ef.level := by
    rcases hc with ⟨-, -, -, he, -⟩ | ⟨-, -, -, he, -⟩ | ⟨-, h0, -⟩
    · exact he
    · exact he
    · exact absurd h0 hnz
  rcases helig with hnone | ⟨e, he, hlt⟩
  · rw [hE] at hnone
    exact absurd hnone (by simp)
  · rw [hE] at he
    injection he with he'
    rw [he']
    exact hlt

/-- Witness for C4 at spec example 1: after A(0,100) on level 1, the call
C(200,250) reuses level 1 and indeed `100 + 10 < 200`. -/
theorem C4_witness : (100 : Int) + cfg0.offset < 200 :=
  C4_spacing cfg0 stA "C" 200 250 "+" efC stC 100 (by decide) rfl rfl

/-- C2: unstranded overwrite — with strand "." and `filter_unstrand` false,
`assign` unconditionally records this feature's end at level 0 (no spacing
check) and returns style `unstrand_arrowstyle` at level 0; moreover the
result of a second unstranded call is entirely independent of the first
call's end value. -/
theorem C2_unstranded_overwrite (cfg : LevelCfg) (s : LevelState)
    (ID : String) (start end_ : Int)
    (hu : cfg.filter_unstrand = false) :
    assign cfg s ID start end_ "." =
      Except.ok (some ⟨ID, start, end_, unstrand_arrowstyle, 0⟩,
        ⟨dictInsert s.level_dict 0 end_, s.count_all + 1, s.count_pos,
          s.count_neg, s.count_unstrand + 1⟩) ∧
    ∀ (end_' : Int) (ID2 : String) (start2 end2 : Int),
      assign cfg
        ⟨dictInsert s.level_dict 0 end_, s.count_all + 1, s.count_pos,
          s.count_neg, s.count_unstrand + 1⟩ ID2 start2 end2 "." =
      assign cfg
        ⟨dictInsert s.level_dict 0 end_', s.count_all + 1, s.count_pos,
          s.count_neg, s.count_unstrand + 1⟩ ID2 start2 end2 "." := by
  refine ⟨assign_unstrand_eq cfg s ID start end_ hu, ?_⟩
  intro end_' ID2 start2 end2
  rw [assign_unstrand_eq cfg _ ID2 start2 end2 hu,
    assign_unstrand_eq cfg _ ID2 start2 end2 hu]
  have hd : dictInsert (dictInsert s.level_dict 0 end_) 0 end2 =
      dictInsert (dictInsert s.level_dict 0 end_') 0 end2 := by
    funext x
    unfold dictInsert
    by_cases hx : x = 0 <;> simp [hx]
  simp only [hd]

/-- Witness for C2 at spec example 3: X(0,50) then Y(10,20), both
unstranded with `filter_unstrand = false`; the second call's result does
not depend on the first end value (50 here, 999 in the comparison). -/
theorem C2_witness :
    assign cfgU initState "X" 0 50 "." =
      Except.ok (some ⟨"X", 0, 50, unstrand_arrowstyle, 0⟩,
        ⟨dictInsert initState.level_dict 0 50, initState.count_all + 1,
          initState.count_pos, initState.count_neg,
          initState.count_unstrand + 1⟩) ∧
    assign cfgU
        ⟨dictInsert initState.level_dict 0 50, initState.count_all + 1,
          initState.count_pos, initState.count_neg,
          initState.count_unstrand + 1⟩ "Y" 10 20 "." =
      assign cfgU
        ⟨dictInsert initState.level_dict 0 999, initState.count_all + 1,
          initState.count_pos, initState.count_neg,
          initState.count_unstrand + 1⟩ "Y" 10 20 "." := by
  have h := C2_unstranded_overwrite cfgU initState "X" 0 50 rfl
  exact ⟨h.1, h.2 999 "Y" 10 20⟩

/-- Counterexample to C3 as stated: with `filter_unstrand = false`, the
unrecognized strand value "x" does NOT take the unstranded branch — the
call returns nothing and the unstranded counter stays 0, while the claim
demands an EnhancedFeature at level 0 and an incremented counter. -/
theorem C3_counterexample :
    (assign cfgU initState "f" 0 10 "x").map
        (fun r => ((r.1).isSome, r.2.count_unstrand)) =
      Except.ok (false, 0) := rfl

/-- C3 (amended): only the literal strand "." takes the unstranded branch
when `filter_unstrand` is false (incrementing the unstranded counter and
returning style `unstrand_arrowstyle` at level 0); any strand value other
than "+", "-" and "." returns nothing and increments no class counter. -/
theorem C3_unrecognized_strand (cfg : LevelCfg) (s : LevelState)
    (ID : String) (start end_ : Int) (strand : String) :
    (cfg.filter_unstrand = false →
      assign cfg s ID start end_ "." =
        Except.ok (some ⟨ID, start, end_, unstrand_arrowstyle, 0⟩,
          ⟨dictInsert s.level_dict 0 end_, s.count_all + 1, s.count_pos,
            s.count_neg, s.count_unstrand + 1⟩)) ∧
    (strand ≠ "+" → strand ≠ "-" → strand ≠ "." →
      assign cfg s ID start end_ strand =
        Except.ok (none, ⟨s.level_dict, s.count_all + 1, s.count_pos,
          s.count_neg, s.count_unstrand⟩)) := by
  constructor
  · intro hu
    exact assign_unstrand_eq cfg s ID start end_ hu
  · intro h1 h2 h3
    apply assign_drop_eq <;> simp [h1, h2, h3]

/-- Witness for C3 (amended): "." with `filter_unstrand = false` is
assigned to level 0, while strand "x" is dropped with no class counter
incremented. -/
theorem C3_witness :
    assign cfgU initState "X" 0 50 "." =
      Except.ok (some ⟨"X", 0, 50, unstrand_arrowstyle, 0⟩,
        ⟨dictInsert initState.level_dict 0 50, initState.count_all + 1,
          initState.count_pos, initState.count_neg,
          initState.count_unstrand + 1⟩) ∧
    assign cfgU initState "f" 0 10 "x" =
      Except.ok (none, ⟨initState.level_dict, initState.count_all + 1,
        initState.count_pos, initState.count_neg,
        initState.count_unstrand⟩) := by
  have ha := (C3_unrecognized_strand cfgU initState "X" 0 50 "x").1 rfl
  have hb := (C3_unrecognized_strand cfgU initState "f" 0 10 "x").2
    (by decide) (by decide) (by decide)
  exact ⟨ha, hb⟩

/-- Counterexample to C8 as stated: the recorded end of level 0 DECREASES.
Unstranded X(0,50) records end 50 at level 0; the next unstranded call
Y(10,20) overwrites it with 20 < 50, so "an existing level's recorded end
only advances (never decreases)" fails. -/
theorem C8_counterexample :
    (assign cfgU initState "X" 0 50 ".").map
        (fun r => r.2.level_dict 0) = Except.ok (some 50) ∧
    (assign cfgU stX "Y" 10 20 ".").map
        (fun r => r.2.level_dict 0) = Except.ok (some 20) ∧
    (20 : Int) < 50 := ⟨rfl, rfl, by decide⟩

/-- C8 (amended): across every call the level map only grows — no key is
ever removed — and, provided the offset is non-negative and the feature's
end is not before its start, the recorded end of every NON-ZERO level never
decreases.  (Level 0 is exempt: the unstranded branch overwrites it
unconditionally and its recorded end may decrease.) -/
theorem C8_monotonic (cfg : LevelCfg) (s : LevelState) (ID : String)
    (start end_ : Int) (strand : String) (r : Option EnhancedFeature)
    (s' : LevelState)
    (hoff : 0 ≤ cfg.offset) (hse : start ≤ end_)
    (h : assign cfg s ID start end_ strand = Except.ok (r, s')) :
    (∀ L v, s.level_dict L = some v → ∃ v', s'.level_dict L = some v') ∧
    (∀ L v v', L ≠ 0 → s.level_dict L = some v →
      s'.level_dict L = some v' → v ≤ v') := by
  cases r with
  | none =>
    have hd := assign_none_inv cfg s ID start end_ strand s' h
    constructor
    · intro L v hv
      exact ⟨v, by rw [hd]; exact hv⟩
    · intro L v v' hnz hv hv'
      rw [hd, hv] at hv'
      injection hv' with h'
      omega
  | some ef =>
    obtain ⟨-, -, -, hc⟩ := assign_some_inv cfg s ID start end_ strand ef s' h
    have hkey : ∃ K, s'.level_dict = dictInsert s.level_dict K end_ ∧
        (K ≠ 0 → eligible s.level_dict cfg.offset start K) := by
      rcases hc with ⟨-, -, -, he, hd⟩ | ⟨-, -, -, he, hd⟩ | ⟨-, h0, hd⟩
      · exact ⟨ef.level, hd, fun _ => he⟩
      · exact ⟨ef.level, hd, fun _ => he⟩
      · exact ⟨0, hd, fun h' => absurd rfl h'⟩
    obtain ⟨K, hd, helig⟩ := hkey
    constructor
    · intro L v hv
      rw [hd]
      unfold dictInsert
      by_cases hLK : L = K
      · exact ⟨end_, by simp [hLK]⟩
      · exact ⟨v, by simp [hLK, hv]⟩
    · intro L v v' hnz hv hv'
      rw [hd] at hv'
      unfold dictInsert at hv'
      by_cases hLK : L = K
      · rw [if_pos hLK] at hv'
        injection hv' with h'
        subst hLK
        have he := helig hnz
        rcases he with hnone | ⟨e, he', hlt⟩
        · rw [hv] at hnone
          exact absurd hnone (by simp)
        · rw [hv] at he'
          injection he' with he''
          omega
      · rw [if_neg hLK] at hv'
        rw [hv] at hv'
        injection hv' with h'
        omega

/-- Witness for C8 (amended) at spec example 1: C(200,250) reuses level 1
on top of `stA`; the key survives and the recorded end advanced from 100 to
250. -/
theorem C8_witness :
    stC.level_dict 1 = some 250 ∧ (100 : Int) ≤ 250 :=
  ⟨rfl, (C8_monotonic cfg0 stA "C" 200 250 "+" (some efC) stC
    (by decide) (by decide) rfl).2 1 100 250 (by decide) rfl rfl⟩
